import Mathlib

/-!
Verification of the GOP planner, reorder engine, DPB manager and Vulkan
encoder session layer of the gstreamer Vulkan H.264/H.265 video encoder.

The definitions below are a shallow embedding of the C sources:

* `gsth265encoder.c` (GOP planner): `_get_log2_max_num`,
  `_set_pyramid_info`, `_create_gop_frame_types`, the idr-period
  adjustment and the `create_poc` block of `_generate_gop_structure`.
* `vkvideoh264encode.c` (H.265 encoder section): `_push_one_frame`,
  `_pop_one_frame`, `_pop_pyramid_b_frame`, `_count_backward_ref_num`,
  `_encode_one_frame` (reference-list construction), `_poc_asc_compare`,
  `_poc_des_compare`, `_find_unused_reference_frame`, and the
  `_insert_ref_pic_marking_for_unused_frame` slice-header rule.
* `gstvkencoder.c`: `gst_vulkan_encoder_stop` and the output-buffer
  arithmetic of `gst_vulkan_encoder_encode`.
* `gstvkoperation.c`: `gst_vulkan_operation_add_dependecy_frame`,
  `_dep_is_frame`, `_dep_set_frame`.

Machine integers are modelled as `Nat` (for unsigned counters whose
overflow is unreachable in the modelled ranges) or `Int` (for `gint`
fields such as `poc`, `frame_num` and the poc diffs).
-/

namespace VkEnc

/-- Slice types (`GstH265SliceType`): I, P or B. -/
inductive SliceType where
  | I
  | P
  | B
deriving DecidableEq, Repr

/-- Entry of the per-B-run pyramid table (`struct PyramidInfo`). -/
structure PyramidInfo where
  level : Nat
  left_ref_poc_diff : Int
  right_ref_poc_diff : Int
deriving DecidableEq, Repr

/-- `_set_pyramid_info` of `gsth265encoder.c`: recursively levels a run of
`len` B slots.  The middle slot of the segment gets `currentLevel`, the two
halves recurse one level deeper until `highestLevel` is reached, at which
point the whole remaining segment takes the current level.  `index` in the
C code is position within the current segment; the poc diffs are computed
from the position and segment length: `left = (index+1) * -2`,
`right = (len-index) * 2`. -/
def setPyramidInfo (len currentLevel highestLevel : Nat) : List PyramidInfo :=
  if len = 0 then []
  else if currentLevel = highestLevel ∨ len = 1 then
    (List.range len).map fun idx =>
      ⟨currentLevel, ((idx : Int) + 1) * (-2), ((len : Int) - (idx : Int)) * 2⟩
  else
    let index := len / 2
    let mid : PyramidInfo :=
      ⟨currentLevel, ((index : Int) + 1) * (-2), ((len : Int) - (index : Int)) * 2⟩
    setPyramidInfo index (currentLevel + 1) highestLevel
      ++ mid :: setPyramidInfo (len - (index + 1)) (currentLevel + 1) highestLevel
termination_by len
decreasing_by
  · omega
  · omega

/-- One entry of the GOP table (`gop.frame_types[i]`). -/
structure GopEntry where
  slice_type : SliceType
  is_ref : Bool
  pyramid_level : Nat
  left_ref_poc_diff : Int
  right_ref_poc_diff : Int
deriving DecidableEq, Repr

/-- The GOP-shape fields of `GstH265Encoder.gop` consumed by
`_create_gop_frame_types`. -/
structure GopConfig where
  idr_period : Nat
  ip_period : Nat
  i_period : Nat
  num_bframes : Nat
  highest_pyramid_level : Nat
  num_iframes : Nat
deriving DecidableEq, Repr

/-- The `pyramid_info[31]` array of `_create_gop_frame_types`: zero
initialised, filled by `_set_pyramid_info` only when
`highest_pyramid_level > 0`.  Lookups out of the filled range read the
zero entry, which `pyramidInfoAt` returns as the default. -/
def pyramidInfoTable (cfg : GopConfig) : List PyramidInfo :=
  if 0 < cfg.highest_pyramid_level then
    setPyramidInfo cfg.num_bframes 0 cfg.highest_pyramid_level
  else []

/-- Read `pyramid_info[idx]` (zero entry when out of the filled range). -/
def pyramidInfoAt (cfg : GopConfig) (idx : Nat) : PyramidInfo :=
  (pyramidInfoTable cfg).getD idx ⟨0, 0, 0⟩

/-- Loop body of `_create_gop_frame_types` for position `i`, carrying the
countdown `iFrames` (the local `i_frames` variable).  Returns the table
entry and the updated countdown. -/
def gopEntryAt (cfg : GopConfig) (i : Nat) (iFrames : Nat) : GopEntry × Nat :=
  if i = 0 then (⟨.I, true, 0, 0, 0⟩, iFrames)
  else if cfg.ip_period = 0 then (⟨.I, false, 0, 0, 0⟩, iFrames)
  else if i % cfg.ip_period ≠ 0 then
    (⟨.B,
      decide ((pyramidInfoAt cfg (i % cfg.ip_period - 1)).level <
        cfg.highest_pyramid_level),
      (pyramidInfoAt cfg (i % cfg.ip_period - 1)).level,
      (pyramidInfoAt cfg (i % cfg.ip_period - 1)).left_ref_poc_diff,
      (pyramidInfoAt cfg (i % cfg.ip_period - 1)).right_ref_poc_diff⟩, iFrames)
  else if cfg.i_period ≠ 0 ∧ i % cfg.i_period = 0 ∧ 0 < iFrames then
    (⟨.I, true, 0, 0, 0⟩, iFrames - 1)
  else (⟨.P, true, 0, 0, 0⟩, iFrames)

/-- Run the `_create_gop_frame_types` loop over the listed positions. -/
def gopTableAux (cfg : GopConfig) (iFrames : Nat) : List Nat → List GopEntry
  | [] => []
  | i :: rest =>
    let p := gopEntryAt cfg i iFrames
    p.1 :: gopTableAux cfg p.2 rest

/-- Replace the element at position `n` (identity when out of range). -/
def modifyNthList (f : α → α) : Nat → List α → List α
  | _, [] => []
  | 0, a :: t => f a :: t
  | n + 1, a :: t => a :: modifyNthList f n t

/-- `_create_gop_frame_types`: fill positions `0 .. idr_period-1`, then, if
`idr_period > 1` and `ip_period > 0`, force the last slot's `slice_type`
to P and its `is_ref` to true (only those two fields are overwritten). -/
def createGopFrameTypes (cfg : GopConfig) : List GopEntry :=
  let table := gopTableAux cfg cfg.num_iframes (List.range cfg.idr_period)
  if 1 < cfg.idr_period ∧ 0 < cfg.ip_period then
    modifyNthList (fun e => { e with slice_type := .P, is_ref := true })
      (cfg.idr_period - 1) table
  else table

/-- `_get_log2_max_num`'s counting loop: number of binary digits of `num`
(`while (num) { ++ret; num >>= 1; }`). -/
def bitLen : Nat → Nat
  | 0 => 0
  | n + 1 => bitLen ((n + 1) / 2) + 1

/-- `_get_log2_max_num`: the bit length clamped to `[4, 16]`. -/
def getLog2MaxNum (num : Nat) : Nat :=
  if bitLen num < 4 then 4 else if bitLen num > 16 then 16 else bitLen num

/-- The four derived fields set in the `create_poc` block of
`_generate_gop_structure`. -/
structure PocDerived where
  log2_max_frame_num : Nat
  max_frame_num : Nat
  log2_max_pic_order_cnt : Nat
  max_pic_order_cnt : Nat
deriving DecidableEq, Repr

/-- `create_poc` block of `_generate_gop_structure`. -/
def createPoc (idr_period : Nat) : PocDerived :=
  ⟨getLog2MaxNum idr_period, 2 ^ getLog2MaxNum idr_period,
    getLog2MaxNum idr_period + 1, 2 ^ (getLog2MaxNum idr_period + 1)⟩

/-- Head of `_generate_gop_structure`: an `idr_period` of 0 becomes one
IDR per second (`⌈fps_n / fps_d⌉`). -/
def defaultedIdrPeriod (idr_period fps_n fps_d : Nat) : Nat :=
  if idr_period = 0 then (fps_n + fps_d - 1) / fps_d else idr_period

/-- Head of `_generate_gop_structure`: the defaulted period is then
clamped to 1024 ("Do not use a too huge GOP size"). -/
def adjustIdrPeriod (idr_period fps_n fps_d : Nat) : Nat :=
  if defaultedIdrPeriod idr_period fps_n fps_d > 1024 then 1024
  else defaultedIdrPeriod idr_period fps_n fps_d

/-- The sentence of the spec for the derived field, written out verbatim:
`log2_max_frame_num = clamp(⌈log2(idr_period)⌉, 4, 16)` (to be compared
with the code's `getLog2MaxNum`). -/
def specLog2MaxFrameNum (idr_period : Nat) : Nat :=
  max 4 (min 16 (Nat.clog 2 idr_period))

/-! ### The `i_frames` countdown of `_create_gop_frame_types` -/

/-- The countdown state (`i_frames`) before the loop processes position
`k`. -/
def iFramesLeft (cfg : GopConfig) : Nat → Nat
  | 0 => cfg.num_iframes
  | k + 1 => (gopEntryAt cfg k (iFramesLeft cfg k)).2

/-- Position `j` passes every test of the I-replacement branch except the
countdown: it is a non-IDR P-slot lying on an `i_period` boundary. -/
def IRSlot (cfg : GopConfig) (j : Nat) : Prop :=
  j ≠ 0 ∧ cfg.ip_period ≠ 0 ∧ j % cfg.ip_period = 0 ∧
    cfg.i_period ≠ 0 ∧ j % cfg.i_period = 0

instance (cfg : GopConfig) (j : Nat) : Decidable (IRSlot cfg j) := by
  unfold IRSlot
  infer_instance

/-- Number of I-replacement slots strictly before position `k`. -/
def countIRSlots (cfg : GopConfig) (k : Nat) : Nat :=
  ((List.range k).filter (fun j => decide (IRSlot cfg j))).length

/-! ### Reorder engine and DPB manager (`vkvideoh264encode.c`, H.265
encoder section) -/

/-- The per-frame record `GstVulkanH265EncodeFrame` (the fields the
reorder engine and DPB manager read and write).  `system_frame_number`
identifies the frame. -/
structure EncFrame where
  ftype : SliceType
  is_ref : Bool
  pyramid_level : Nat
  left_ref_poc_diff : Int
  right_ref_poc_diff : Int
  poc : Int
  frame_num : Int
  unused_for_reference_pic_num : Int
  system_frame_number : Nat
deriving DecidableEq, Repr

/-- The `gop` sub-struct fields of `GstH265Encoder` used by the reorder
engine. -/
structure GopState where
  idr_period : Nat
  b_pyramid : Bool
  num_ref_frames : Nat
  ref_num_list0 : Nat
  ref_num_list1 : Nat
  max_frame_num : Int
  cur_frame_index : Nat
  cur_frame_num : Int
  total_idr_count : Nat
deriving DecidableEq, Repr

/-- Encoder state: the GOP state plus the two queues (`reorder_list`,
`ref_list`); the head of each Lean list is the head of the queue. -/
structure EncState where
  gop : GopState
  reorder_list : List EncFrame
  ref_list : List EncFrame
deriving DecidableEq, Repr

/-- `_count_backward_ref_num`: number of frames of the list with poc
greater than the given poc. -/
def countBackwardRefs (refList : List EncFrame) (poc : Int) : Nat :=
  (refList.filter fun f => poc < f.poc).length

/-- The scan of `_pop_pyramid_b_frame` ("Find the lowest level with
smallest poc"): walk the queue keeping a current best frame (and its
index); the next frame replaces the best when the best's pyramid level is
lower than its own, or otherwise when the next frame's poc is lower. -/
def pyramidScan (best : EncFrame) (bidx : Nat) : List (Nat × EncFrame) → EncFrame × Nat
  | [] => (best, bidx)
  | (i, f) :: rest =>
    if best.pyramid_level < f.pyramid_level then pyramidScan f i rest
    else if f.poc < best.poc then pyramidScan f i rest
    else pyramidScan best bidx rest

/-- Run the scan over the whole reorder list (none when it is empty). -/
def pyramidSelect (l : List EncFrame) : Option (EncFrame × Nat) :=
  match l with
  | [] => none
  | b :: rest => some (pyramidScan b 0 (rest.enumFrom 1))

/-- One check of the `again:` loop of `_pop_pyramid_b_frame`: the first
frame at another queue position whose poc equals
`best.poc + best.left_ref_poc_diff` or `best.poc + best.right_ref_poc_diff`
(a still-buffered anchor of the current best). -/
def findAnchor (l : List EncFrame) (best : EncFrame) (bidx : Nat) :
    Option (Nat × EncFrame) :=
  l.enum.find? fun p =>
    p.1 ≠ bidx ∧ (p.2.poc = best.poc + best.left_ref_poc_diff ∨
      p.2.poc = best.poc + best.right_ref_poc_diff)

/-- The `again:` loop: move to a still-buffered anchor of the current
best and rescan, until no anchor of the best remains.  The C loop has no
termination guard; `fuel` bounds the iterations of the embedding (the
anchor graphs the planner produces are acyclic, so `l.length` hops
suffice on reachable states). -/
def pyramidWalk : Nat → List EncFrame → EncFrame → Nat → EncFrame × Nat
  | 0, _, best, bidx => (best, bidx)
  | fuel + 1, l, best, bidx =>
    match findAnchor l best bidx with
    | none => (best, bidx)
    | some (i, f) => pyramidWalk fuel l f i

/-- The frame (and its queue index) `_pop_pyramid_b_frame` settles on
before the backward-reference check: the scan result, corrected by the
anchor walk. -/
def pyramidCandidate (st : EncState) : Option (EncFrame × Nat) :=
  match pyramidSelect st.reorder_list with
  | none => none
  | some (b0, i0) => some (pyramidWalk st.reorder_list.length st.reorder_list b0 i0)

/-- `_pop_pyramid_b_frame`: select a pyramid B (scan then anchor walk);
pop it only when `ref_list` already holds at least `ref_num_list1` frames
with greater poc, otherwise return nothing. -/
def popPyramidBFrame (st : EncState) : Option (EncFrame × List EncFrame) :=
  match pyramidCandidate st with
  | none => none
  | some (b, i) =>
    if st.gop.ref_num_list1 ≤ countBackwardRefs st.ref_list b.poc then
      some (b, st.reorder_list.eraseIdx i)
    else none

/-- A buffered level-0 pyramid B at poc 10 whose anchors (poc 8 and 12)
have left the queue. -/
def c4Frame1 : EncFrame := ⟨.B, true, 0, -2, 2, 10, 0, -1, 1⟩

/-- A buffered level-1 pyramid B at poc 2. -/
def c4Frame2 : EncFrame := ⟨.B, false, 1, -2, 2, 2, 0, -1, 2⟩

/-- A reorder state holding the two pyramid Bs above, with one backward
reference at poc 20 and `ref_num_list1 = 1`. -/
def c4State : EncState :=
  ⟨⟨8, true, 3, 2, 1, 32, 5, 2, 0⟩, [c4Frame1, c4Frame2],
   [⟨.P, true, 0, 0, 0, 20, 0, -1, 3⟩]⟩

/-- The `get_one:` tail of `_pop_one_frame`: the popped frame gets
`frame_num = cur_frame_num`; `cur_frame_num` is incremented for reference
frames; `total_idr_count` is incremented when the assigned frame number
is 0. -/
def assignFrameNum (st : EncState) (f : EncFrame) (reorder2 : List EncFrame) :
    Option EncFrame × EncState :=
  (some { f with frame_num := st.gop.cur_frame_num },
   { st with
       reorder_list := reorder2,
       gop := { st.gop with
         cur_frame_num :=
           st.gop.cur_frame_num + (if f.is_ref then 1 else 0),
         total_idr_count :=
           st.gop.total_idr_count + (if st.gop.cur_frame_num = 0 then 1 else 0) } })

/-- `_pop_one_frame`: nothing when the reorder list is empty; a non-B
tail is popped immediately; in b-pyramid mode delegate to
`popPyramidBFrame`; otherwise pop the head unconditionally at GOP end
(`cur_frame_index = idr_period`), or when `ref_list` holds at least
`ref_num_list1` frames with poc above the head's. -/
def popOneFrame (st : EncState) : Option EncFrame × EncState :=
  match st.reorder_list.getLast? with
  | none => (none, st)
  | some tl =>
    if tl.ftype ≠ .B then assignFrameNum st tl st.reorder_list.dropLast
    else if st.gop.b_pyramid then
      match popPyramidBFrame st with
      | none => (none, st)
      | some (f, reorder2) => assignFrameNum st f reorder2
    else if st.gop.cur_frame_index = st.gop.idr_period then
      match st.reorder_list with
      | [] => (none, st)
      | h :: t => assignFrameNum st h t
    else
      match st.reorder_list with
      | [] => (none, st)
      | h :: t =>
        if st.gop.ref_num_list1 ≤ countBackwardRefs st.ref_list h.poc then
          assignFrameNum st h t
        else (none, st)

/-! ### Reference-list construction (`_encode_one_frame`) -/

/-- Insertion step of the poc-descending sort (the
`g_qsort_with_data (..., _poc_des_compare, ...)` call). -/
def insertPocDesc (f : EncFrame) : List EncFrame → List EncFrame
  | [] => [f]
  | g :: t => if g.poc ≤ f.poc then f :: g :: t else g :: insertPocDesc f t

/-- Sort by poc descending. -/
def sortPocDesc (l : List EncFrame) : List EncFrame :=
  l.foldr insertPocDesc []

/-- Insertion step of the poc-ascending sort (`_poc_asc_compare`). -/
def insertPocAsc (f : EncFrame) : List EncFrame → List EncFrame
  | [] => [f]
  | g :: t => if f.poc ≤ g.poc then f :: g :: t else g :: insertPocAsc f t

/-- Sort by poc ascending. -/
def sortPocAsc (l : List EncFrame) : List EncFrame :=
  l.foldr insertPocAsc []

/-- The list0 loop of `_encode_one_frame`: walk `ref_list` from the tail
to the head, skip frames with poc above the current frame's, then sort
the collected frames by poc descending and truncate to `ref_num_list0`. -/
def buildList0 (refList : List EncFrame) (cur : EncFrame) (refNumList0 : Nat) :
    List EncFrame :=
  (sortPocDesc (refList.reverse.filter fun f => ¬ cur.poc < f.poc)).take refNumList0

/-- The list1 loop of `_encode_one_frame`: walk `ref_list` from the head,
skip frames with poc below the current frame's, then sort by poc
ascending and truncate to `ref_num_list1`. -/
def buildList1 (refList : List EncFrame) (cur : EncFrame) (refNumList1 : Nat) :
    List EncFrame :=
  (sortPocAsc (refList.filter fun f => ¬ f.poc < cur.poc)).take refNumList1

/-- The reference lists `_encode_one_frame` hands to
`_encode_one_vulkan_frame`: list0 for every non-I frame, list1 only for a
B frame, both empty for an I slice. -/
def referenceLists (refList : List EncFrame) (cur : EncFrame)
    (refNumList0 refNumList1 : Nat) : List EncFrame × List EncFrame :=
  (if cur.ftype ≠ .I then buildList0 refList cur refNumList0 else [],
   if cur.ftype = .B then buildList1 refList cur refNumList1 else [])

/-! ### DPB eviction (`_find_unused_reference_frame`) -/

/-- One iteration of the "Choose the B frame with lowest POC" loop of
`_find_unused_reference_frame`: non-B frames are skipped; the first B
becomes the candidate, later Bs replace it when their poc is strictly
lower. -/
def minPocBStep : Option EncFrame → EncFrame → Option EncFrame
  | none, f => if f.ftype = .B then some f else none
  | some b, f =>
    if f.ftype = .B then (if f.poc < b.poc then some f else some b) else some b

/-- The "Choose the B frame with lowest POC" loop. -/
def findMinPocB (refList : List EncFrame) : Option EncFrame :=
  refList.foldl minPocBStep none

/-- `_find_unused_reference_frame`: nothing to evict while the reference
list is below `num_ref_frames`; without b-pyramid, or for a non-B current
frame, evict the queue head; otherwise evict the B reference with lowest
poc, recording `unused_for_reference_pic_num = evictee.frame_num` on the
current frame when the evictee is not the head.  Returns the evictee and
the (possibly updated) current frame. -/
def findUnusedReferenceFrame (gop : GopState) (refList : List EncFrame)
    (cur : EncFrame) : Option EncFrame × EncFrame :=
  if refList.length < gop.num_ref_frames then (none, cur)
  else if ¬ gop.b_pyramid then (refList.head?, cur)
  else if cur.ftype ≠ .B then (refList.head?, cur)
  else
    match findMinPocB refList with
    | none => (refList.head?, cur)
    | some b =>
      if refList.head? = some b then (some b, cur)
      else (some b, { cur with unused_for_reference_pic_num := b.frame_num })

/-- The `dec_ref_pic_marking` the slice-header builder emits
(`_add_slice_header` / `_insert_ref_pic_marking_for_unused_frame`): when
the frame carries a non-negative `unused_for_reference_pic_num`, adaptive
marking is switched on with an opcode-1 operation
(`difference_of_pic_nums_minus1 = frame_num - unused - 1`) followed by
the opcode-0 terminator. -/
structure DecRefPicMarking where
  adaptive_ref_pic_marking_mode_flag : Bool
  ops : List (Nat × Int)
deriving DecidableEq, Repr

/-- Marking decision of `_add_slice_header`. -/
def decRefPicMarking (f : EncFrame) : DecRefPicMarking :=
  if 0 ≤ f.unused_for_reference_pic_num then
    ⟨true, [(1, f.frame_num - f.unused_for_reference_pic_num - 1), (0, 0)]⟩
  else ⟨false, []⟩

/-! ### `gst_vulkan_encoder_stop` (`gstvkencoder.c`) -/

/-- The owned resources of `GstVulkanEncoderPrivate` that
`gst_vulkan_encoder_stop` destroys, plus the `started` flag (`true` =
object alive / non-NULL). -/
structure VkEncoderState where
  started : Bool
  session : Bool
  session_params : Bool
  profile_caps : Bool
  exec : Bool
deriving DecidableEq, Repr

/-- `gst_vulkan_encoder_stop`: when not started return TRUE untouched;
otherwise destroy the session, the profile caps, the session parameters
and the operation object, and clear `started`. -/
def vulkanEncoderStop (s : VkEncoderState) : Bool × VkEncoderState :=
  if ¬ s.started then (true, s)
  else (true, ⟨false, false, false, false, false⟩)

/-! ### Output-buffer arithmetic of `gst_vulkan_encoder_encode` -/

/-- Feedback of the video-encode query
(`GstVulkanEncodeQueryResult`). -/
structure EncodeFeedback where
  offset : Nat
  data_size : Nat
  complete : Bool
deriving DecidableEq, Repr

/-- `gst_buffer_resize (buffer, offset, size)` on a buffer modelled as
its byte list: keep `size` bytes starting `offset` bytes into the
buffer. -/
def gstBufferResize (buf : List Nat) (offset size : Nat) : List Nat :=
  (buf.drop offset).take size

/-- The output buffer right before the query read-back: the packed
headers inserted in front (the `gst_buffer_insert_memory` loop, summing
`params_size`) followed by the GPU bitstream memory. -/
def encodeOutputBuffer (headers : List (List Nat)) (gpuMem : List Nat) : List Nat :=
  headers.flatten ++ gpuMem

/-- Tail of `gst_vulkan_encoder_encode`: when the query status is
complete, the out buffer is resized with offset `encode_res->offset` and
size `encode_res->data_size + params_size`; otherwise the encode fails
and no buffer is emitted. -/
def encodeEmittedBytes (headers : List (List Nat)) (gpuMem : List Nat)
    (fb : EncodeFeedback) : Option (List Nat) :=
  if fb.complete then
    some (gstBufferResize (encodeOutputBuffer headers gpuMem) fb.offset
      (fb.data_size + (headers.map List.length).sum))
  else none

/-! ### `gst_vulkan_operation_add_dependecy_frame` (`gstvkoperation.c`) -/

/-- A `GstVulkanImageMemory` plane of a frame: its identity, its timeline
semaphore (none = `VK_NULL_HANDLE`) and the semaphore's current value. -/
structure ImageMem where
  id : Nat
  semaphore : Option Nat
  semaphore_value : Nat
deriving DecidableEq, Repr

/-- A `GstVulkanDependencyFrame` entry. -/
structure DepFrame where
  mems : List ImageMem
  updated : Bool
  semaphored : Bool
deriving DecidableEq, Repr

/-- A `VkSemaphoreSubmitInfoKHR` entry of the wait / signal arrays. -/
structure SemSubmitInfo where
  semaphore : Nat
  value : Nat
  stageMask : Nat
deriving DecidableEq, Repr

/-- The dependency arrays of `GstVulkanOperationPrivate.deps`. -/
structure OperationDeps where
  frames : List DepFrame
  wait_semaphores : List SemSubmitInfo
  signal_semaphores : List SemSubmitInfo
deriving DecidableEq, Repr

/-- `_dep_is_frame`: the dependency entry holds exactly the buffer's
memories, plane by plane (the C compares the first `n_mems` pointers). -/
def depIsFrame (dep : DepFrame) (frame : List ImageMem) : Bool :=
  dep.mems.take frame.length == frame

/-- `gst_vulkan_operation_add_dependecy_frame`: an already semaphored
entry for the same frame short-circuits to TRUE; otherwise the frame is
recorded (`_dep_set_frame`, `semaphored = TRUE`) and, when the timeline
machinery is available, a wait entry at the current semaphore value and a
signal entry at value + 1 are appended for each plane up to the first one
without a semaphore; without the extensions the call fails after having
recorded the frame. -/
def addDependencyFrame (hasTimeline : Bool) (deps : OperationDeps)
    (frame : List ImageMem) (waitStage signalStage : Nat) : Bool × OperationDeps :=
  if deps.frames.any (fun dep => depIsFrame dep frame && dep.semaphored) then
    (true, deps)
  else
    if hasTimeline then
      (true,
       { frames := deps.frames ++ [⟨frame, false, true⟩],
         wait_semaphores := deps.wait_semaphores ++
           (frame.takeWhile (fun m => m.semaphore.isSome)).map
             (fun m => ⟨m.semaphore.getD 0, m.semaphore_value, waitStage⟩),
         signal_semaphores := deps.signal_semaphores ++
           (frame.takeWhile (fun m => m.semaphore.isSome)).map
             (fun m => ⟨m.semaphore.getD 0, m.semaphore_value + 1, signalStage⟩) })
    else
      (false, { deps with frames := deps.frames ++ [⟨frame, false, true⟩] })

/-! ## Theorems -/

/-! ### Properties of the bit-length loop of `_get_log2_max_num` -/

theorem lt_two_pow_bitLen (n : Nat) : n < 2 ^ bitLen n := by
  induction n using Nat.strong_induction_on with
  | _ n ih =>
    match n with
    | 0 => simp [bitLen]
    | m + 1 =>
      have h := ih ((m + 1) / 2) (by omega)
      rw [bitLen, pow_succ]
      omega

theorem two_pow_bitLen_pred_le (n : Nat) (hn : 1 ≤ n) : 2 ^ (bitLen n - 1) ≤ n := by
  induction n using Nat.strong_induction_on with
  | _ n ih =>
    match n with
    | 0 => omega
    | m + 1 =>
      rw [bitLen]
      rcases Nat.eq_zero_or_pos ((m + 1) / 2) with h0 | hpos
      · have hm : m = 0 := by omega
        subst hm
        simp [h0, bitLen]
      · have h := ih ((m + 1) / 2) (by omega) hpos
        have hb : 1 ≤ bitLen ((m + 1) / 2) := by
          rcases Nat.exists_eq_add_of_le hpos with ⟨k, hk⟩
          rw [show (m + 1) / 2 = k + 1 by omega, bitLen]
          omega
        have h2 : 2 ^ (bitLen ((m + 1) / 2) - 1 + 1) ≤ 2 * ((m + 1) / 2) := by
          rw [pow_succ]
          omega
        rw [show bitLen ((m + 1) / 2) + 1 - 1 = bitLen ((m + 1) / 2) - 1 + 1 by omega]
        omega

theorem bitLen_eq_log (n : Nat) (hn : 1 ≤ n) : bitLen n = Nat.log 2 n + 1 := by
  have h1 := two_pow_bitLen_pred_le n hn
  have h2 := lt_two_pow_bitLen n
  have hb : 1 ≤ bitLen n := by
    rcases Nat.exists_eq_add_of_le hn with ⟨k, hk⟩
    rw [show n = k + 1 by omega, bitLen]
    omega
  have := Nat.log_eq_of_pow_le_of_lt_pow h1
    (by rw [show bitLen n - 1 + 1 = bitLen n by omega]; exact h2)
  omega

theorem bitLen_le_of_le_1024 (n : Nat) (hn : n ≤ 1024) : bitLen n ≤ 11 := by
  by_contra h
  have h1 : 2 ^ (bitLen n - 1) ≤ n := by
    apply two_pow_bitLen_pred_le
    match n, h with
    | 0, h => simp [bitLen] at h
    | m + 1, _ => omega
  have h2 : 2 ^ 11 ≤ 2 ^ (bitLen n - 1) := Nat.pow_le_pow_right (by omega) (by omega)
  omega

theorem getLog2MaxNum_eq_clamp (n : Nat) :
    getLog2MaxNum n = max 4 (min 16 (bitLen n)) := by
  unfold getLog2MaxNum
  split
  · omega
  · split <;> omega

/-! ### C6 / C7 theorems -/

/-- C6 counterexample: at `idr_period = 16` the code's
`log2_max_frame_num` is 5 (the bit length of 16), not
`clamp(⌈log2 16⌉, 4, 16) = 4` as the claim states. -/
theorem c6_counterexample :
    (createPoc 16).log2_max_frame_num = 5 ∧ specLog2MaxFrameNum 16 = 4 ∧
      (createPoc 16).log2_max_frame_num ≠ specLog2MaxFrameNum 16 := by
  have hclog : Nat.clog 2 16 = 4 := by
    rw [show (16 : Nat) = 2 ^ 4 by norm_num]
    exact Nat.clog_pow 2 4 (by norm_num)
  have hcode : (createPoc 16).log2_max_frame_num = 5 := by
    show getLog2MaxNum 16 = 5
    norm_num [getLog2MaxNum, bitLen]
  have hspec : specLog2MaxFrameNum 16 = 4 := by
    simp [specLog2MaxFrameNum, hclog]
  exact ⟨hcode, hspec, by omega⟩

/-- C6 (amended): for `idr_period ∈ [1, 1024]`, the planner's derived
fields satisfy `log2_max_frame_num = clamp(⌊log2 idr_period⌋ + 1, 4, 16)`
(the binary bit length of `idr_period`, clamped), with
`max_frame_num = 2 ^ log2_max_frame_num`,
`log2_max_pic_order_cnt = log2_max_frame_num + 1` and
`max_pic_order_cnt = 2 ^ log2_max_pic_order_cnt`. -/
theorem c6_create_poc_derived (idr : Nat) (h1 : 1 ≤ idr) (h2 : idr ≤ 1024) :
    (createPoc idr).log2_max_frame_num = max 4 (min 16 (Nat.log 2 idr + 1)) ∧
    (createPoc idr).max_frame_num = 2 ^ (createPoc idr).log2_max_frame_num ∧
    (createPoc idr).log2_max_pic_order_cnt = (createPoc idr).log2_max_frame_num + 1 ∧
    (createPoc idr).max_pic_order_cnt = 2 ^ (createPoc idr).log2_max_pic_order_cnt := by
  refine ⟨?_, rfl, rfl, rfl⟩
  show getLog2MaxNum idr = _
  rw [getLog2MaxNum_eq_clamp, bitLen_eq_log idr h1]

/-- Witness for `c6_create_poc_derived` at `idr_period = 30`. -/
theorem c6_create_poc_derived_witness :
    (createPoc 30).log2_max_frame_num = max 4 (min 16 (Nat.log 2 30 + 1)) :=
  (c6_create_poc_derived 30 (by norm_num) (by norm_num)).1

/-- After the idr-period adjustment the period is at most 1024. -/
theorem adjustIdrPeriod_le (idr_period fps_n fps_d : Nat) :
    adjustIdrPeriod idr_period fps_n fps_d ≤ 1024 := by
  unfold adjustIdrPeriod
  split <;> omega

/-- The code's derived `max_pic_order_cnt` strictly dominates `2 * n` for
every `n ≤ 1024`. -/
theorem createPoc_gt_double (n : Nat) (hn : n ≤ 1024) :
    2 * n < (createPoc n).max_pic_order_cnt := by
  have hlt := lt_two_pow_bitLen n
  have hble := bitLen_le_of_le_1024 n hn
  have hL : bitLen n ≤ getLog2MaxNum n := by
    rw [getLog2MaxNum_eq_clamp]
    omega
  have hpow : 2 ^ bitLen n ≤ 2 ^ getLog2MaxNum n :=
    Nat.pow_le_pow_right (by omega) hL
  show 2 * n < 2 ^ (getLog2MaxNum n + 1)
  rw [pow_succ]
  omega

/-- C7: for any fps and any idr-period property value, after the
adjustment and clamp performed by `_generate_gop_structure` the derived
`max_pic_order_cnt` exceeds `2 × idr_period`, so the per-frame
`poc = (2 × gop_index) mod max_pic_order_cnt` assigned by
`_push_one_frame` never collides between two frames of the same GOP. -/
theorem c7_no_poc_collision (idr_period fps_n fps_d : Nat) (hfd : 0 < fps_d) :
    2 * adjustIdrPeriod idr_period fps_n fps_d <
      (createPoc (adjustIdrPeriod idr_period fps_n fps_d)).max_pic_order_cnt ∧
    ∀ i j : Nat, i < adjustIdrPeriod idr_period fps_n fps_d →
      j < adjustIdrPeriod idr_period fps_n fps_d → i ≠ j →
      (2 * i) % (createPoc (adjustIdrPeriod idr_period fps_n fps_d)).max_pic_order_cnt ≠
        (2 * j) % (createPoc (adjustIdrPeriod idr_period fps_n fps_d)).max_pic_order_cnt := by
  have hle := adjustIdrPeriod_le idr_period fps_n fps_d
  have hgt := createPoc_gt_double _ hle
  refine ⟨hgt, fun i j hi hj hne => ?_⟩
  have h2i : 2 * i < (createPoc (adjustIdrPeriod idr_period fps_n fps_d)).max_pic_order_cnt := by
    omega
  have h2j : 2 * j < (createPoc (adjustIdrPeriod idr_period fps_n fps_d)).max_pic_order_cnt := by
    omega
  rw [Nat.mod_eq_of_lt h2i, Nat.mod_eq_of_lt h2j]
  omega

/-- Witness for `c7_no_poc_collision` at idr-period 30, fps 30/1. -/
theorem c7_no_poc_collision_witness :
    2 * adjustIdrPeriod 30 30 1 < (createPoc (adjustIdrPeriod 30 30 1)).max_pic_order_cnt :=
  (c7_no_poc_collision 30 30 1 (by norm_num)).1

theorem gopEntryAt_snd (cfg : GopConfig) (k ifr : Nat) :
    (gopEntryAt cfg k ifr).2 = if IRSlot cfg k ∧ 0 < ifr then ifr - 1 else ifr := by
  unfold gopEntryAt IRSlot
  split_ifs <;> simp_all

theorem countIRSlots_succ (cfg : GopConfig) (k : Nat) :
    countIRSlots cfg (k + 1) =
      countIRSlots cfg k + if IRSlot cfg k then 1 else 0 := by
  unfold countIRSlots
  rw [List.range_succ, List.filter_append, List.length_append]
  split_ifs with h <;> simp [h]

theorem iFramesLeft_eq (cfg : GopConfig) (k : Nat) :
    iFramesLeft cfg k = cfg.num_iframes - countIRSlots cfg k := by
  induction k with
  | zero => simp [iFramesLeft, countIRSlots]
  | succ k ih =>
    rw [iFramesLeft, gopEntryAt_snd, countIRSlots_succ, ih]
    by_cases hir : IRSlot cfg k
    · simp only [hir, true_and, if_true]
      split_ifs <;> omega
    · simp [hir]

/-- Unrolling `gopTableAux` over `List.range' s n` starting from the
countdown state at `s`. -/
theorem gopTableAux_get (cfg : GopConfig) (n : Nat) :
    ∀ s k, k < n →
      (gopTableAux cfg (iFramesLeft cfg s) (List.range' s n))[k]? =
        some (gopEntryAt cfg (s + k) (iFramesLeft cfg (s + k))).1 := by
  induction n with
  | zero => omega
  | succ n ih =>
    intro s k hk
    rw [List.range'_succ]
    show ((gopEntryAt cfg s (iFramesLeft cfg s)).1 ::
      gopTableAux cfg (gopEntryAt cfg s (iFramesLeft cfg s)).2 (List.range' (s + 1) n))[k]? = _
    have hstep : (gopEntryAt cfg s (iFramesLeft cfg s)).2 = iFramesLeft cfg (s + 1) := rfl
    rw [hstep]
    match k with
    | 0 => simp
    | k + 1 =>
      have := ih (s + 1) k (by omega)
      simpa [Nat.add_assoc, Nat.add_comm, Nat.add_left_comm] using this

theorem gopTableAux_length (cfg : GopConfig) (ifr : Nat) (l : List Nat) :
    (gopTableAux cfg ifr l).length = l.length := by
  induction l generalizing ifr with
  | nil => rfl
  | cons i rest ih => simp [gopTableAux, ih]

theorem modifyNthList_get (f : α → α) (n : Nat) (l : List α) (k : Nat) :
    (modifyNthList f n l)[k]? = if k = n then f <$> l[k]? else l[k]? := by
  induction l generalizing n k with
  | nil => simp [modifyNthList]
  | cons a t ih =>
    match n, k with
    | 0, 0 => simp [modifyNthList]
    | 0, k + 1 => simp [modifyNthList]
    | n + 1, 0 => simp [modifyNthList]
    | n + 1, k + 1 => simpa [modifyNthList] using ih n k

theorem modifyNthList_length (f : α → α) (n : Nat) (l : List α) :
    (modifyNthList f n l).length = l.length := by
  induction l generalizing n with
  | nil => cases n <;> rfl
  | cons a t ih =>
    match n with
    | 0 => rfl
    | n + 1 => simpa [modifyNthList] using ih n

theorem createGopFrameTypes_length (cfg : GopConfig) :
    (createGopFrameTypes cfg).length = cfg.idr_period := by
  unfold createGopFrameTypes
  split <;> simp [modifyNthList_length, gopTableAux_length]

theorem createGopFrameTypes_get (cfg : GopConfig) (i : Nat) (hi : i < cfg.idr_period) :
    (createGopFrameTypes cfg)[i]? =
      if 1 < cfg.idr_period ∧ 0 < cfg.ip_period ∧ i = cfg.idr_period - 1 then
        some { (gopEntryAt cfg i (iFramesLeft cfg i)).1 with
                 slice_type := SliceType.P, is_ref := true }
      else some (gopEntryAt cfg i (iFramesLeft cfg i)).1 := by
  have hbase : (gopTableAux cfg cfg.num_iframes (List.range cfg.idr_period))[i]? =
      some (gopEntryAt cfg i (iFramesLeft cfg i)).1 := by
    rw [List.range_eq_range']
    have h := gopTableAux_get cfg cfg.idr_period 0 i hi
    simpa [iFramesLeft] using h
  unfold createGopFrameTypes
  split
  · rename_i h
    rw [modifyNthList_get, hbase]
    by_cases hi2 : i = cfg.idr_period - 1
    · rw [if_pos hi2, if_pos ⟨h.1, h.2, hi2⟩]
      rfl
    · rw [if_neg hi2, if_neg (by tauto)]
  · rename_i h
    rw [hbase, if_neg (by tauto)]

/-- C5: characterisation of every position of the GOP table produced by
`_create_gop_frame_types`.  Position 0 is an I reference; with
`ip_period = 0` (intra only) every later position is a non-reference I;
a position off the `ip_period` grid is a B whose pyramid level and poc
diffs come from the pyramid info and which is a reference exactly when
its level is below `highest_pyramid_level`; a non-final position on the
grid is an I reference exactly when it lies on an `i_period` boundary
with I-insertions remaining (fewer than `num_iframes` such replacements
made so far), and a P reference otherwise; and when `idr_period > 1` and
`ip_period > 0` the final position is forced to a P reference. -/
theorem c5_gop_table (cfg : GopConfig) (i : Nat) (hi : i < cfg.idr_period)
    (e : GopEntry) (he : (createGopFrameTypes cfg)[i]? = some e) :
    (i = 0 → e.slice_type = .I ∧ e.is_ref = true) ∧
    (0 < i → cfg.ip_period = 0 → e.slice_type = .I ∧ e.is_ref = false) ∧
    (0 < cfg.ip_period → i % cfg.ip_period ≠ 0 → i ≠ cfg.idr_period - 1 →
      e.slice_type = .B ∧
      e.pyramid_level = (pyramidInfoAt cfg (i % cfg.ip_period - 1)).level ∧
      e.left_ref_poc_diff = (pyramidInfoAt cfg (i % cfg.ip_period - 1)).left_ref_poc_diff ∧
      e.right_ref_poc_diff = (pyramidInfoAt cfg (i % cfg.ip_period - 1)).right_ref_poc_diff ∧
      (e.is_ref = true ↔ e.pyramid_level < cfg.highest_pyramid_level)) ∧
    (0 < i → 0 < cfg.ip_period → i % cfg.ip_period = 0 → i ≠ cfg.idr_period - 1 →
      ((e.slice_type = .I ∧ e.is_ref = true) ↔
        IRSlot cfg i ∧ countIRSlots cfg i < cfg.num_iframes) ∧
      (¬ (IRSlot cfg i ∧ countIRSlots cfg i < cfg.num_iframes) →
        e.slice_type = .P ∧ e.is_ref = true)) ∧
    (1 < cfg.idr_period → 0 < cfg.ip_period → i = cfg.idr_period - 1 →
      e.slice_type = .P ∧ e.is_ref = true) := by
  have hget := createGopFrameTypes_get cfg i hi
  rw [he] at hget
  by_cases hfin : 1 < cfg.idr_period ∧ 0 < cfg.ip_period ∧ i = cfg.idr_period - 1
  · rw [if_pos hfin] at hget
    have he2 : e = { (gopEntryAt cfg i (iFramesLeft cfg i)).1 with
        slice_type := SliceType.P, is_ref := true } := Option.some.inj hget
    have hi0 : i ≠ 0 := by omega
    refine ⟨fun h0 => absurd h0 hi0, ?_, ?_, ?_, ?_⟩
    · intro _ hip
      omega
    · intro _ _ hne
      exact absurd hfin.2.2 hne
    · intro _ _ _ hne
      exact absurd hfin.2.2 hne
    · intro _ _ _
      rw [he2]
      exact ⟨rfl, rfl⟩
  · rw [if_neg hfin] at hget
    have he2 : e = (gopEntryAt cfg i (iFramesLeft cfg i)).1 := Option.some.inj hget
    refine ⟨?_, ?_, ?_, ?_, ?_⟩
    · intro h0
      rw [he2, h0]
      unfold gopEntryAt
      rw [if_pos rfl]
      exact ⟨rfl, rfl⟩
    · intro h0 hip
      rw [he2]
      unfold gopEntryAt
      rw [if_neg (by omega), if_pos hip]
      exact ⟨rfl, rfl⟩
    · intro hip hmod _
      have h0 : i ≠ 0 := fun h => hmod (by simp [h])
      rw [he2]
      unfold gopEntryAt
      rw [if_neg h0, if_neg (by omega), if_pos hmod]
      refine ⟨rfl, rfl, rfl, rfl, ?_⟩
      simp
    · intro h0 hip hmod _
      have hcnt : 0 < iFramesLeft cfg i ↔ countIRSlots cfg i < cfg.num_iframes := by
        rw [iFramesLeft_eq]
        omega
      rw [he2]
      unfold gopEntryAt
      rw [if_neg (by omega), if_neg (by omega), if_neg (by omega)]
      by_cases hbr : cfg.i_period ≠ 0 ∧ i % cfg.i_period = 0 ∧ 0 < iFramesLeft cfg i
      · rw [if_pos hbr]
        constructor
        · constructor
          · intro _
            exact ⟨⟨by omega, by omega, hmod, hbr.1, hbr.2.1⟩, hcnt.mp hbr.2.2⟩
          · intro _
            exact ⟨rfl, rfl⟩
        · intro hcontra
          exact absurd ⟨⟨by omega, by omega, hmod, hbr.1, hbr.2.1⟩, hcnt.mp hbr.2.2⟩ hcontra
      · rw [if_neg hbr]
        constructor
        · constructor
          · intro hIref
            exact absurd hIref.1 (by simp)
          · intro hslot
            exact absurd ⟨hslot.1.2.2.2.1, hslot.1.2.2.2.2, hcnt.mpr hslot.2⟩ hbr
        · intro _
          exact ⟨rfl, rfl⟩
    · intro ha hb hc
      exact absurd ⟨ha, hb, hc⟩ hfin

/-- Witness for `c5_gop_table`: in the GOP `idr_period = 4`,
`ip_period = 1` (no B frames, no extra I frames), position 2 is a P
reference. -/
theorem c5_gop_table_witness :
    (GopEntry.mk SliceType.P true 0 0 0).slice_type = SliceType.P ∧
      (GopEntry.mk SliceType.P true 0 0 0).is_ref = true := by
  have h := c5_gop_table ⟨4, 1, 0, 0, 0, 0⟩ 2 (by decide)
    (GopEntry.mk SliceType.P true 0 0 0) (by decide)
  exact (h.2.2.2.1 (by decide) (by decide) (by decide) (by decide)).2 (by decide)

/-! ### C9: stop is idempotent -/

/-- C9: a second `gst_vulkan_encoder_stop` returns TRUE and changes
nothing; the first call on a started encoder destroys the session, the
session parameters, the operation object and the profile caps and clears
`started`; a call on a stopped encoder returns TRUE and leaves the state
untouched. -/
theorem c9_stop_idempotent (s : VkEncoderState) :
    (vulkanEncoderStop (vulkanEncoderStop s).2).1 = true ∧
    (vulkanEncoderStop (vulkanEncoderStop s).2).2 = (vulkanEncoderStop s).2 ∧
    (s.started = true →
      (vulkanEncoderStop s).2 = ⟨false, false, false, false, false⟩) ∧
    (s.started = false →
      (vulkanEncoderStop s).1 = true ∧ (vulkanEncoderStop s).2 = s) := by
  unfold vulkanEncoderStop
  by_cases h : s.started = true <;> simp_all

/-- Witness for `c9_stop_idempotent` on a fully started encoder. -/
theorem c9_stop_idempotent_witness :
    (vulkanEncoderStop ⟨true, true, true, true, true⟩).2 =
      ⟨false, false, false, false, false⟩ :=
  (c9_stop_idempotent ⟨true, true, true, true, true⟩).2.2.1 rfl

/-! ### C10: adding the same dependency frame twice is idempotent -/

theorem depIsFrame_self (frame : List ImageMem) (u s : Bool) :
    depIsFrame ⟨frame, u, s⟩ frame = true := by
  simp [depIsFrame]

/-- C10: calling `gst_vulkan_operation_add_dependecy_frame` twice with
the same frame buffer within one recording is idempotent: the second call
returns TRUE and appends no further dependency entry and no further wait
or signal semaphore entry, so each frame's timeline semaphores appear at
most once per submitted operation. -/
theorem c10_add_dependency_idempotent (hasTimeline : Bool)
    (deps : OperationDeps) (frame : List ImageMem) (ws ss : Nat) :
    addDependencyFrame hasTimeline
        (addDependencyFrame hasTimeline deps frame ws ss).2 frame ws ss =
      (true, (addDependencyFrame hasTimeline deps frame ws ss).2) := by
  unfold addDependencyFrame
  by_cases h : deps.frames.any (fun dep => depIsFrame dep frame && dep.semaphored) = true
  · simp [h]
  · by_cases ht : hasTimeline = true <;>
      simp [h, ht, List.any_append, depIsFrame_self]

/-! ### C8: emitted byte count after a complete encode -/

/-- C8 counterexample: with one 5-byte packed header, a 20-byte GPU
buffer and feedback `offset = 4`, `size = 10`, the emitted buffer holds
`size + params_size = 15` bytes, not `offset + size + params_size = 19`
as the claim states (`gst_buffer_resize` uses the offset to trim the
front, it does not add it to the size). -/
theorem c8_counterexample :
    (encodeEmittedBytes [[7, 7, 7, 7, 7]] (List.replicate 20 1)
        ⟨4, 10, true⟩).map List.length = some 15 ∧
      (4 : Nat) + 10 + (([[7, 7, 7, 7, 7]] : List (List Nat)).map List.length).sum = 19 ∧
      (15 : Nat) ≠ 19 := by
  refine ⟨?_, by decide, by decide⟩
  decide

/-- C8 (amended): for every encode whose feedback query returns status
complete (and whose feedback window lies inside the output buffer), the
emitted byte count equals the query's size plus the total length of the
packed headers prepended to the buffer; the query's offset is consumed by
trimming the front of the buffer, it is not added to the emitted size. -/
theorem c8_emitted_size (headers : List (List Nat)) (gpuMem : List Nat)
    (fb : EncodeFeedback) (hc : fb.complete = true)
    (hfit : fb.offset + fb.data_size + (headers.map List.length).sum ≤
      (encodeOutputBuffer headers gpuMem).length) :
    (encodeEmittedBytes headers gpuMem fb).map List.length =
      some (fb.data_size + (headers.map List.length).sum) := by
  unfold encodeEmittedBytes gstBufferResize
  rw [if_pos hc]
  simp only [Option.map_some']
  rw [List.length_take, List.length_drop]
  rw [Nat.min_eq_left (by omega)]

/-- Witness for `c8_emitted_size`: one 5-byte header, 20 GPU bytes,
feedback offset 4 and size 10 emit 15 bytes. -/
theorem c8_emitted_size_witness :
    (encodeEmittedBytes [[7, 7, 7, 7, 7]] (List.replicate 20 1)
        ⟨4, 10, true⟩).map List.length = some (10 + 5) :=
  c8_emitted_size [[7, 7, 7, 7, 7]] (List.replicate 20 1) ⟨4, 10, true⟩
    (by decide) (by decide)

/-! ### C1: the decision rule of `_pop_one_frame` -/

theorem assignFrameNum_fst (st : EncState) (f : EncFrame) (r : List EncFrame) :
    (assignFrameNum st f r).1 = some { f with frame_num := st.gop.cur_frame_num } :=
  rfl

theorem assignFrameNum_reorder (st : EncState) (f : EncFrame) (r : List EncFrame) :
    (assignFrameNum st f r).2.reorder_list = r :=
  rfl

theorem assignFrameNum_cur (st : EncState) (f : EncFrame) (r : List EncFrame) :
    (assignFrameNum st f r).2.gop.cur_frame_num =
      st.gop.cur_frame_num + (if f.is_ref then 1 else 0) :=
  rfl

/-- Every frame `_pop_one_frame` emits goes through the `get_one:` tail:
it carries `frame_num = cur_frame_num`, and `cur_frame_num` grows by one
exactly when the frame is a reference. -/
theorem assignFrameNum_eq (st : EncState) (g : EncFrame) (r : List EncFrame)
    (f : EncFrame) (st2 : EncState) (hg : assignFrameNum st g r = (some f, st2)) :
    f.frame_num = st.gop.cur_frame_num ∧
      st2.gop.cur_frame_num = st.gop.cur_frame_num + (if f.is_ref then 1 else 0) := by
  have h1 : (assignFrameNum st g r).1 = some f := by rw [hg]
  have h2 : (assignFrameNum st g r).2 = st2 := by rw [hg]
  rw [assignFrameNum_fst] at h1
  obtain rfl := (Option.some.inj h1).symm
  refine ⟨rfl, ?_⟩
  rw [← h2, assignFrameNum_cur]

theorem popOneFrame_some (st : EncState) (f : EncFrame) (st2 : EncState)
    (h : popOneFrame st = (some f, st2)) :
    f.frame_num = st.gop.cur_frame_num ∧
      st2.gop.cur_frame_num = st.gop.cur_frame_num + (if f.is_ref then 1 else 0) := by
  unfold popOneFrame at h
  split at h
  · simp at h
  · split at h
    · exact assignFrameNum_eq st _ _ f st2 h
    · split at h
      · split at h
        · simp at h
        · exact assignFrameNum_eq st _ _ f st2 h
      · split at h
        · split at h
          · simp at h
          · exact assignFrameNum_eq st _ _ f st2 h
        · split at h
          · simp at h
          · split at h
            · exact assignFrameNum_eq st _ _ f st2 h
            · simp at h

/-- C1: `_pop_one_frame` emits nothing on an empty reorder list; a non-B
tail is popped (removing the tail); without b-pyramid and with a B tail,
the head is popped exactly when the GOP has ended
(`cur_frame_index = idr_period`) or `ref_list` holds at least
`ref_num_list1` frames with poc above the head's; and every popped frame
gets `frame_num = cur_frame_num`, with `cur_frame_num` incremented iff
the popped frame is a reference. -/
theorem c1_pop_one_frame (st : EncState) :
    (st.reorder_list = [] → popOneFrame st = (none, st)) ∧
    (∀ tl, st.reorder_list.getLast? = some tl → tl.ftype ≠ .B →
      (popOneFrame st).1 = some { tl with frame_num := st.gop.cur_frame_num } ∧
      (popOneFrame st).2.reorder_list = st.reorder_list.dropLast) ∧
    (∀ tl hd t, st.reorder_list.getLast? = some tl → tl.ftype = .B →
      st.gop.b_pyramid = false → st.reorder_list = hd :: t →
      (((popOneFrame st).1.isSome ↔
        (st.gop.cur_frame_index = st.gop.idr_period ∨
          st.gop.ref_num_list1 ≤ countBackwardRefs st.ref_list hd.poc)) ∧
       ((popOneFrame st).1.isSome →
        (popOneFrame st).1 = some { hd with frame_num := st.gop.cur_frame_num } ∧
        (popOneFrame st).2.reorder_list = t))) ∧
    (∀ f st2, popOneFrame st = (some f, st2) →
      f.frame_num = st.gop.cur_frame_num ∧
      st2.gop.cur_frame_num = st.gop.cur_frame_num + (if f.is_ref then 1 else 0)) := by
  refine ⟨?_, ?_, ?_, fun f st2 h => popOneFrame_some st f st2 h⟩
  · intro hnil
    unfold popOneFrame
    rw [show st.reorder_list.getLast? = none by rw [hnil]; rfl]
  · intro tl hls htb
    have hpop : popOneFrame st = assignFrameNum st tl st.reorder_list.dropLast := by
      unfold popOneFrame
      rw [show st.reorder_list.getLast? = some tl from hls]
      exact if_pos htb
    rw [hpop, assignFrameNum_fst, assignFrameNum_reorder]
    exact ⟨rfl, rfl⟩
  · intro tl hd t hls htb hpy hrl
    have htb2 : ¬ tl.ftype ≠ SliceType.B := by simp [htb]
    have hpy2 : ¬ st.gop.b_pyramid = true := by simp [hpy]
    have hbody : ∀ x : Option EncFrame × EncState,
        (if tl.ftype ≠ SliceType.B then assignFrameNum st tl st.reorder_list.dropLast
         else if st.gop.b_pyramid = true then
           match popPyramidBFrame st with
           | none => (none, st)
           | some (f, reorder2) => assignFrameNum st f reorder2
         else if st.gop.cur_frame_index = st.gop.idr_period then
           match st.reorder_list with
           | [] => (none, st)
           | h :: t => assignFrameNum st h t
         else
           match st.reorder_list with
           | [] => (none, st)
           | h :: t =>
             if st.gop.ref_num_list1 ≤ countBackwardRefs st.ref_list h.poc then
               assignFrameNum st h t
             else (none, st)) = x →
        popOneFrame st = x := by
      intro x hx
      unfold popOneFrame
      split
      · rename_i heq
        rw [hls] at heq
        simp at heq
      · rename_i tl' heq
        rw [hls] at heq
        obtain rfl := Option.some.inj heq
        exact hx
    by_cases hend : st.gop.cur_frame_index = st.gop.idr_period
    · have hpop : popOneFrame st = assignFrameNum st hd t := by
        apply hbody
        rw [if_neg htb2, if_neg hpy2, if_pos hend, hrl]
      rw [hpop, assignFrameNum_fst, assignFrameNum_reorder]
      exact ⟨by simp [hend], fun _ => ⟨rfl, rfl⟩⟩
    · by_cases hcnt : st.gop.ref_num_list1 ≤ countBackwardRefs st.ref_list hd.poc
      · have hpop : popOneFrame st = assignFrameNum st hd t := by
          apply hbody
          rw [if_neg htb2, if_neg hpy2, if_neg hend, hrl]
          show (if st.gop.ref_num_list1 ≤ countBackwardRefs st.ref_list hd.poc then
            assignFrameNum st hd t else (none, st)) = _
          rw [if_pos hcnt]
        rw [hpop, assignFrameNum_fst, assignFrameNum_reorder]
        exact ⟨by simp [hcnt], fun _ => ⟨rfl, rfl⟩⟩
      · have hpop : popOneFrame st = (none, st) := by
          apply hbody
          rw [if_neg htb2, if_neg hpy2, if_neg hend, hrl]
          show (if st.gop.ref_num_list1 ≤ countBackwardRefs st.ref_list hd.poc then
            assignFrameNum st hd t else (none, st)) = _
          rw [if_neg hcnt]
        rw [hpop]
        exact ⟨by simp [hend, hcnt], fun hcontra => by simp at hcontra⟩

/-- Witness for `c1_pop_one_frame`: popping from an empty reorder list
emits nothing. -/
theorem c1_pop_one_frame_witness :
    popOneFrame ⟨⟨8, false, 3, 2, 1, 32, 0, 0, 0⟩, [], []⟩ =
      (none, ⟨⟨8, false, 3, 2, 1, 32, 0, 0, 0⟩, [], []⟩) :=
  (c1_pop_one_frame ⟨⟨8, false, 3, 2, 1, 32, 0, 0, 0⟩, [], []⟩).1 rfl

/-! ### C3: `_find_unused_reference_frame` -/

theorem minPocBStep_none (acc : Option EncFrame) (f0 : EncFrame) :
    minPocBStep acc f0 = none ↔ acc = none ∧ f0.ftype ≠ .B := by
  cases acc with
  | none =>
    by_cases h : f0.ftype = .B <;> simp [minPocBStep, h]
  | some a =>
    by_cases h : f0.ftype = .B
    · simp only [minPocBStep, if_pos h]
      split_ifs <;> simp [h]
    · simp [minPocBStep, h]

theorem minPocBStep_spec (acc : Option EncFrame) (f0 b : EncFrame)
    (h : minPocBStep acc f0 = some b) :
    (acc = some b ∨ (b = f0 ∧ f0.ftype = .B)) ∧
    (f0.ftype = .B → b.poc ≤ f0.poc) ∧
    (∀ a, acc = some a → b.poc ≤ a.poc) := by
  cases acc with
  | none =>
    simp only [minPocBStep] at h
    by_cases hB : f0.ftype = .B
    · rw [if_pos hB] at h
      have hbe : b = f0 := (Option.some.inj h).symm
      exact ⟨Or.inr ⟨hbe, hB⟩, fun _ => by rw [hbe], fun a ha => by cases ha⟩
    · rw [if_neg hB] at h
      cases h
  | some a =>
    simp only [minPocBStep] at h
    by_cases hB : f0.ftype = .B
    · rw [if_pos hB] at h
      by_cases hlt : f0.poc < a.poc
      · rw [if_pos hlt] at h
        have hbe : b = f0 := (Option.some.inj h).symm
        refine ⟨Or.inr ⟨hbe, hB⟩, fun _ => by rw [hbe], fun a' ha' => ?_⟩
        cases Option.some.inj ha'
        rw [hbe]
        omega
      · rw [if_neg hlt] at h
        have hbe : b = a := (Option.some.inj h).symm
        refine ⟨Or.inl (by rw [hbe]), fun _ => by rw [hbe]; omega, fun a' ha' => ?_⟩
        cases Option.some.inj ha'
        rw [hbe]
    · rw [if_neg hB] at h
      have hbe : b = a := (Option.some.inj h).symm
      refine ⟨Or.inl (by rw [hbe]), fun hB2 => absurd hB2 hB, fun a' ha' => ?_⟩
      cases Option.some.inj ha'
      rw [hbe]

theorem foldl_minPocB (l : List EncFrame) :
    ∀ acc : Option EncFrame,
      (∀ b, l.foldl minPocBStep acc = some b →
        (acc = some b ∨ b ∈ l) ∧ (b.ftype = .B ∨ acc = some b) ∧
        (∀ f ∈ l, f.ftype = .B → b.poc ≤ f.poc) ∧
        (∀ a, acc = some a → b.poc ≤ a.poc)) ∧
      (l.foldl minPocBStep acc = none → acc = none ∧ ∀ f ∈ l, f.ftype ≠ .B) := by
  induction l with
  | nil =>
    intro acc
    constructor
    · intro b hb
      have hacc : acc = some b := hb
      refine ⟨Or.inl hacc, Or.inr hacc, by simp, fun a ha => ?_⟩
      rw [hacc] at ha
      cases Option.some.inj ha
      omega
    · intro h
      exact ⟨h, by simp⟩
  | cons f0 t ih =>
    intro acc
    constructor
    · intro b hb
      rw [List.foldl_cons] at hb
      obtain ⟨hmem, htyp, hmin, hprev⟩ := (ih (minPocBStep acc f0)).1 b hb
      refine ⟨?_, ?_, ?_, ?_⟩
      · rcases hmem with hstep | hmemt
        · rcases (minPocBStep_spec acc f0 b hstep).1 with h | ⟨hbe, _⟩
          · exact Or.inl h
          · refine Or.inr ?_
            rw [hbe]
            exact List.mem_cons_self _ _
        · exact Or.inr (List.mem_cons_of_mem _ hmemt)
      · rcases htyp with hB | hstep
        · exact Or.inl hB
        · rcases (minPocBStep_spec acc f0 b hstep).1 with h | ⟨hbe, hB⟩
          · exact Or.inr h
          · refine Or.inl ?_
            rw [hbe]
            exact hB
      · intro f hf hfB
        rcases List.mem_cons.mp hf with heq | hft
        · rw [heq] at hfB ⊢
          rcases hstep : minPocBStep acc f0 with _ | a
          · exact absurd hfB ((minPocBStep_none acc f0).mp hstep).2
          · have h1 := hprev a hstep
            have h2 := (minPocBStep_spec acc f0 a hstep).2.1 hfB
            omega
        · exact hmin f hft hfB
      · intro a ha
        rcases hstep : minPocBStep acc f0 with _ | a'
        · rw [ha] at hstep
          exact absurd ((minPocBStep_none _ _).mp hstep).1 (by simp)
        · have h1 := hprev a' hstep
          have h2 := (minPocBStep_spec acc f0 a' hstep).2.2 a ha
          omega
    · intro hnone
      rw [List.foldl_cons] at hnone
      obtain ⟨hstep, ht⟩ := (ih (minPocBStep acc f0)).2 hnone
      obtain ⟨hacc, hf0⟩ := (minPocBStep_none acc f0).mp hstep
      refine ⟨hacc, fun f hf => ?_⟩
      rcases List.mem_cons.mp hf with rfl | h
      · exact hf0
      · exact ht f h

theorem findMinPocB_spec (l : List EncFrame) (b : EncFrame)
    (h : findMinPocB l = some b) :
    b ∈ l ∧ b.ftype = .B ∧ ∀ f ∈ l, f.ftype = .B → b.poc ≤ f.poc := by
  obtain ⟨hmem, htyp, hmin, _⟩ := (foldl_minPocB l none).1 b h
  refine ⟨?_, ?_, hmin⟩
  · rcases hmem with h | h
    · cases h
    · exact h
  · rcases htyp with h | h
    · exact h
    · cases h

theorem findMinPocB_none (l : List EncFrame) (h : findMinPocB l = none) :
    ∀ f ∈ l, f.ftype ≠ .B :=
  ((foldl_minPocB l none).2 h).2

/-- C3: eviction decision of `_find_unused_reference_frame`.  Below
capacity nothing is evicted; without b-pyramid, or for an I/P current
frame, the head of the (frame_num-sorted) reference queue is evicted;
with b-pyramid and a current B frame, a B reference with the lowest poc
is evicted, and when that evictee is not the head the current frame
records `unused_for_reference_pic_num = evictee.frame_num`, which makes
the slice header emit the explicit memory-management control operation
(opcode 1, then the opcode-0 terminator). -/
theorem c3_find_unused_reference (gop : GopState) (refList : List EncFrame)
    (cur : EncFrame) :
    (refList.length < gop.num_ref_frames →
      findUnusedReferenceFrame gop refList cur = (none, cur)) ∧
    (gop.num_ref_frames ≤ refList.length →
      (gop.b_pyramid = false ∨ cur.ftype ≠ .B) →
      findUnusedReferenceFrame gop refList cur = (refList.head?, cur) ∧
      (refList.Pairwise (fun a b => a.frame_num ≤ b.frame_num) →
        ∀ h, refList.head? = some h → ∀ f ∈ refList, h.frame_num ≤ f.frame_num)) ∧
    (gop.num_ref_frames ≤ refList.length → gop.b_pyramid = true →
      cur.ftype = .B → (∃ b ∈ refList, b.ftype = .B) →
      ∀ b cur2, findUnusedReferenceFrame gop refList cur = (some b, cur2) →
        (b ∈ refList ∧ b.ftype = .B ∧
          ∀ f ∈ refList, f.ftype = .B → b.poc ≤ f.poc) ∧
        (refList.head? ≠ some b →
          cur2.unused_for_reference_pic_num = b.frame_num ∧
          (0 ≤ b.frame_num →
            (decRefPicMarking cur2).adaptive_ref_pic_marking_mode_flag = true ∧
            (decRefPicMarking cur2).ops =
              [(1, cur2.frame_num - b.frame_num - 1), (0, 0)])) ∧
        (refList.head? = some b → cur2 = cur)) := by
  have hsorted : refList.Pairwise (fun a b => a.frame_num ≤ b.frame_num) →
      ∀ h, refList.head? = some h → ∀ f ∈ refList, h.frame_num ≤ f.frame_num := by
    intro hp h hh f hf
    cases refList with
    | nil => cases hh
    | cons x t =>
      obtain rfl := Option.some.inj hh
      rcases List.mem_cons.mp hf with rfl | hft
      · omega
      · exact (List.pairwise_cons.mp hp).1 f hft
  refine ⟨?_, ?_, ?_⟩
  · intro hlt
    unfold findUnusedReferenceFrame
    rw [if_pos hlt]
  · intro hge hcase
    refine ⟨?_, hsorted⟩
    unfold findUnusedReferenceFrame
    rw [if_neg (by omega)]
    rcases hcase with hpy | hI
    · rw [if_pos (by simp [hpy])]
    · by_cases hpy : ¬ gop.b_pyramid = true
      · rw [if_pos hpy]
      · rw [if_neg hpy, if_pos hI]
  · intro hge hpy hB hex b cur2 hres
    unfold findUnusedReferenceFrame at hres
    rw [if_neg (by omega), if_neg (by simp [hpy]), if_neg (by simp [hB])] at hres
    rcases hmb : findMinPocB refList with _ | b0
    · obtain ⟨bb, hbb, hbbB⟩ := hex
      exact absurd hbbB (findMinPocB_none refList hmb bb hbb)
    · rw [hmb] at hres
      have hres2 : (if refList.head? = some b0 then (some b0, cur)
          else (some b0,
            { cur with unused_for_reference_pic_num := b0.frame_num })) =
          (some b, cur2) := hres
      by_cases hhead : refList.head? = some b0
      · rw [if_pos hhead] at hres2
        have hb : b0 = b := by
          have := congrArg Prod.fst hres2
          simpa using this
        have hcur : cur2 = cur := by
          have := congrArg Prod.snd hres2
          simpa using this.symm
        subst hb
        exact ⟨findMinPocB_spec refList b0 hmb, fun hne => absurd hhead hne,
          fun _ => hcur⟩
      · rw [if_neg hhead] at hres2
        have hb : b0 = b := by
          have := congrArg Prod.fst hres2
          simpa using this
        have hcur : cur2 =
            { cur with unused_for_reference_pic_num := b0.frame_num } := by
          have := congrArg Prod.snd hres2
          simpa using this.symm
        subst hb
        refine ⟨findMinPocB_spec refList b0 hmb, fun _ => ?_, fun hh => absurd hh hhead⟩
        subst hcur
        refine ⟨rfl, fun hfn => ?_⟩
        unfold decRefPicMarking
        rw [if_pos (by simpa using hfn)]
        exact ⟨rfl, rfl⟩

/-- Witness for `c3_find_unused_reference`: a reference list below the
DPB capacity evicts nothing. -/
theorem c3_find_unused_reference_witness :
    findUnusedReferenceFrame ⟨8, true, 3, 2, 1, 32, 0, 0, 0⟩ []
        ⟨.B, false, 1, -2, 2, 2, 0, -1, 5⟩ =
      (none, ⟨.B, false, 1, -2, 2, 2, 0, -1, 5⟩) :=
  (c3_find_unused_reference ⟨8, true, 3, 2, 1, 32, 0, 0, 0⟩ []
    ⟨.B, false, 1, -2, 2, 2, 0, -1, 5⟩).1 (by decide)

/-! ### C2: list0 / list1 construction of `_encode_one_frame` -/

theorem insertPocDesc_perm (f : EncFrame) (l : List EncFrame) :
    (insertPocDesc f l).Perm (f :: l) := by
  induction l with
  | nil => exact List.Perm.refl _
  | cons g t ih =>
    unfold insertPocDesc
    by_cases h : g.poc ≤ f.poc
    · rw [if_pos h]
    · rw [if_neg h]
      exact (ih.cons g).trans (List.Perm.swap f g t)

theorem insertPocDesc_sorted (f : EncFrame) (l : List EncFrame)
    (hs : l.Pairwise (fun a b => b.poc ≤ a.poc)) :
    (insertPocDesc f l).Pairwise (fun a b => b.poc ≤ a.poc) := by
  induction l with
  | nil => simp [insertPocDesc]
  | cons g t ih =>
    obtain ⟨hg, ht⟩ := List.pairwise_cons.mp hs
    unfold insertPocDesc
    by_cases h : g.poc ≤ f.poc
    · rw [if_pos h]
      refine List.pairwise_cons.mpr ⟨?_, hs⟩
      intro x hx
      rcases List.mem_cons.mp hx with heq | hxt
      · rw [heq]
        exact h
      · exact le_trans (hg x hxt) h
    · rw [if_neg h]
      refine List.pairwise_cons.mpr ⟨?_, ih ht⟩
      intro x hx
      have hx2 : x ∈ f :: t := (insertPocDesc_perm f t).mem_iff.mp hx
      rcases List.mem_cons.mp hx2 with heq | hxt
      · rw [heq]
        omega
      · exact hg x hxt

theorem sortPocDesc_perm (l : List EncFrame) : (sortPocDesc l).Perm l := by
  induction l with
  | nil => exact List.Perm.refl _
  | cons f t ih => exact (insertPocDesc_perm f (sortPocDesc t)).trans (ih.cons f)

theorem sortPocDesc_sorted (l : List EncFrame) :
    (sortPocDesc l).Pairwise (fun a b => b.poc ≤ a.poc) := by
  induction l with
  | nil => simp [sortPocDesc]
  | cons f t ih => exact insertPocDesc_sorted f (sortPocDesc t) ih

theorem insertPocAsc_perm (f : EncFrame) (l : List EncFrame) :
    (insertPocAsc f l).Perm (f :: l) := by
  induction l with
  | nil => exact List.Perm.refl _
  | cons g t ih =>
    unfold insertPocAsc
    by_cases h : f.poc ≤ g.poc
    · rw [if_pos h]
    · rw [if_neg h]
      exact (ih.cons g).trans (List.Perm.swap f g t)

theorem insertPocAsc_sorted (f : EncFrame) (l : List EncFrame)
    (hs : l.Pairwise (fun a b => a.poc ≤ b.poc)) :
    (insertPocAsc f l).Pairwise (fun a b => a.poc ≤ b.poc) := by
  induction l with
  | nil => simp [insertPocAsc]
  | cons g t ih =>
    obtain ⟨hg, ht⟩ := List.pairwise_cons.mp hs
    unfold insertPocAsc
    by_cases h : f.poc ≤ g.poc
    · rw [if_pos h]
      refine List.pairwise_cons.mpr ⟨?_, hs⟩
      intro x hx
      rcases List.mem_cons.mp hx with heq | hxt
      · rw [heq]
        exact h
      · exact le_trans h (hg x hxt)
    · rw [if_neg h]
      refine List.pairwise_cons.mpr ⟨?_, ih ht⟩
      intro x hx
      have hx2 : x ∈ f :: t := (insertPocAsc_perm f t).mem_iff.mp hx
      rcases List.mem_cons.mp hx2 with heq | hxt
      · rw [heq]
        omega
      · exact hg x hxt

theorem sortPocAsc_perm (l : List EncFrame) : (sortPocAsc l).Perm l := by
  induction l with
  | nil => exact List.Perm.refl _
  | cons f t ih => exact (insertPocAsc_perm f (sortPocAsc t)).trans (ih.cons f)

theorem sortPocAsc_sorted (l : List EncFrame) :
    (sortPocAsc l).Pairwise (fun a b => a.poc ≤ b.poc) := by
  induction l with
  | nil => simp [sortPocAsc]
  | cons f t ih => exact insertPocAsc_sorted f (sortPocAsc t) ih

/-- Two lists of frames with pairwise-distinct pocs that are
permutations of each other and both sorted by the same poc order are
equal. -/
theorem sorted_poc_eq {r : EncFrame → EncFrame → Prop}
    (hr : ∀ a b, r a b → r b a → a.poc = b.poc) :
    ∀ {l₁ l₂ : List EncFrame}, l₁.Perm l₂ → l₁.Pairwise r → l₂.Pairwise r →
      (l₁.map (fun f => f.poc)).Nodup → l₁ = l₂ := by
  intro l₁
  induction l₁ with
  | nil =>
    intro l₂ hp _ _ _
    exact (List.perm_nil.mp hp.symm).symm
  | cons a t ih =>
    intro l₂ hp hs₁ hs₂ hnd
    cases l₂ with
    | nil => cases List.perm_nil.mp hp
    | cons b t₂ =>
      simp only [List.map_cons, List.nodup_cons] at hnd
      have hab : a = b := by
        by_contra hne
        have hain : a ∈ b :: t₂ := hp.mem_iff.mp (List.mem_cons_self a t)
        have hbin : b ∈ a :: t := hp.mem_iff.mpr (List.mem_cons_self b t₂)
        have hat₂ : a ∈ t₂ := by
          rcases List.mem_cons.mp hain with h | h
          · exact absurd h hne
          · exact h
        have hbt : b ∈ t := by
          rcases List.mem_cons.mp hbin with h | h
          · exact absurd h.symm hne
          · exact h
        have h1 : r b a := (List.pairwise_cons.mp hs₂).1 a hat₂
        have h2 : r a b := (List.pairwise_cons.mp hs₁).1 b hbt
        have hpoc : a.poc = b.poc := hr a b h2 h1
        exact hnd.1 (by rw [hpoc]; exact List.mem_map_of_mem _ hbt)
      subst hab
      have ht : t = t₂ :=
        ih hp.cons_inv (List.pairwise_cons.mp hs₁).2 (List.pairwise_cons.mp hs₂).2
          hnd.2
      rw [ht]

/-- C2: for every non-I frame, the list0 handed to the encoder is
exactly the reference-list frames with poc at most the current frame's,
in poc-descending order, truncated to `ref_num_list0`; for a B frame,
list1 is exactly the reference-list frames with poc above the current
frame's, in poc-ascending order, truncated to `ref_num_list1`; for an I
slice both lists are empty, and for a P slice list1 is empty.  The
sortedness hypotheses pin the order down because the reference pocs are
pairwise distinct. -/
theorem c2_reference_lists (refList : List EncFrame) (cur : EncFrame)
    (n0 n1 : Nat) (hnd : (refList.map (fun f => f.poc)).Nodup) :
    (cur.ftype = .I → referenceLists refList cur n0 n1 = ([], [])) ∧
    (cur.ftype ≠ .I → ∀ l : List EncFrame, l.Pairwise (fun a b => b.poc ≤ a.poc) →
      l.Perm (refList.filter (fun f => decide (f.poc ≤ cur.poc))) →
      (referenceLists refList cur n0 n1).1 = l.take n0) ∧
    (cur.ftype = .B → cur.poc ∉ refList.map (fun f => f.poc) →
      ∀ l : List EncFrame, l.Pairwise (fun a b => a.poc ≤ b.poc) →
      l.Perm (refList.filter (fun f => decide (cur.poc < f.poc))) →
      (referenceLists refList cur n0 n1).2 = l.take n1) ∧
    (cur.ftype = .P → (referenceLists refList cur n0 n1).2 = []) := by
  refine ⟨?_, ?_, ?_, ?_⟩
  · intro hI
    simp [referenceLists, hI]
  · intro hne l hsl hpl
    have h1 : (referenceLists refList cur n0 n1).1 = buildList0 refList cur n0 := by
      simp [referenceLists, hne]
    rw [h1]
    unfold buildList0
    have hsort : sortPocDesc (refList.reverse.filter fun f => ¬ cur.poc < f.poc) = l := by
      apply sorted_poc_eq (fun a b hab hba => le_antisymm hba hab)
      · refine (sortPocDesc_perm _).trans ?_
        rw [List.filter_reverse]
        refine (List.reverse_perm _).trans ?_
        rw [List.filter_congr (q := fun f => decide (f.poc ≤ cur.poc))
          (fun x _ => by simp [Int.not_lt])]
        exact hpl.symm
      · exact sortPocDesc_sorted _
      · exact hsl
      · refine ((sortPocDesc_perm _).map (fun f => f.poc)).nodup_iff.mpr ?_
        refine List.Nodup.sublist (List.Sublist.map _ (List.filter_sublist _)) ?_
        rw [List.map_reverse]
        exact List.nodup_reverse.mpr hnd
    rw [hsort]
  · intro hB hcur l hsl hpl
    have h1 : (referenceLists refList cur n0 n1).2 = buildList1 refList cur n1 := by
      simp [referenceLists, hB]
    rw [h1]
    unfold buildList1
    have hsort : sortPocAsc (refList.filter fun f => ¬ f.poc < cur.poc) = l := by
      apply sorted_poc_eq (fun a b hab hba => le_antisymm hab hba)
      · refine (sortPocAsc_perm _).trans ?_
        rw [List.filter_congr (q := fun f => decide (cur.poc < f.poc))
          (fun x hx => ?_)]
        · exact hpl.symm
        · have hxne : x.poc ≠ cur.poc := fun he => hcur (by
            rw [← he]
            exact List.mem_map_of_mem _ hx)
          simp only [decide_eq_decide]
          constructor
          · intro h
            omega
          · intro h
            omega
      · exact sortPocAsc_sorted _
      · exact hsl
      · refine ((sortPocAsc_perm _).map (fun f => f.poc)).nodup_iff.mpr ?_
        exact List.Nodup.sublist (List.Sublist.map _ (List.filter_sublist _)) hnd
    rw [hsort]
  · intro hP
    simp [referenceLists, hP]

/-- Witness for `c2_reference_lists`: with references at poc 0 and poc 4
and a current B frame at poc 2, list0 (capped at 1) is the poc-0
reference alone. -/
theorem c2_reference_lists_witness :
    (referenceLists [⟨.P, true, 0, 0, 0, 0, 0, -1, 10⟩,
        ⟨.P, true, 0, 0, 0, 4, 1, -1, 11⟩]
      ⟨.B, false, 1, -2, 2, 2, 2, -1, 12⟩ 1 1).1 =
      ([⟨.P, true, 0, 0, 0, 0, 0, -1, 10⟩] : List EncFrame).take 1 :=
  (c2_reference_lists [⟨.P, true, 0, 0, 0, 0, 0, -1, 10⟩,
      ⟨.P, true, 0, 0, 0, 4, 1, -1, 11⟩]
    ⟨.B, false, 1, -2, 2, 2, 2, -1, 12⟩ 1 1 (by decide)).2.1 (by decide)
    [⟨.P, true, 0, 0, 0, 0, 0, -1, 10⟩] (by decide) (by decide)

/-! ### C4: `_pop_pyramid_b_frame` -/

theorem pyramidScan_get (l : List EncFrame) :
    ∀ (pairs : List (Nat × EncFrame)) (best : EncFrame) (bidx : Nat),
      l[bidx]? = some best →
      (∀ p ∈ pairs, l[p.1]? = some p.2) →
      l[(pyramidScan best bidx pairs).2]? = some (pyramidScan best bidx pairs).1 := by
  intro pairs
  induction pairs with
  | nil =>
    intro best bidx hb _
    exact hb
  | cons p rest ih =>
    intro best bidx hb hp
    obtain ⟨i, f⟩ := p
    have hf : l[i]? = some f := hp (i, f) (List.mem_cons_self _ _)
    have hrest : ∀ q ∈ rest, l[q.1]? = some q.2 :=
      fun q hq => hp q (List.mem_cons_of_mem _ hq)
    simp only [pyramidScan]
    by_cases h1 : best.pyramid_level < f.pyramid_level
    · rw [if_pos h1]
      exact ih f i hf hrest
    · rw [if_neg h1]
      by_cases h2 : f.poc < best.poc
      · rw [if_pos h2]
        exact ih f i hf hrest
      · rw [if_neg h2]
        exact ih best bidx hb hrest

theorem pyramidSelect_get (l : List EncFrame) (b : EncFrame) (i : Nat)
    (h : pyramidSelect l = some (b, i)) : l[i]? = some b := by
  cases l with
  | nil => cases h
  | cons x rest =>
    simp only [pyramidSelect] at h
    have h2 := Option.some.inj h
    have hpairs : ∀ p ∈ rest.enumFrom 1, (x :: rest)[p.1]? = some p.2 := by
      intro p hp
      obtain ⟨j, f⟩ := p
      obtain ⟨hj1, hj2, hj3⟩ := List.mem_enumFrom hp
      obtain ⟨j2, rfl⟩ : ∃ j2, j = j2 + 1 := ⟨j - 1, by omega⟩
      have hj : j2 < rest.length := by omega
      show (x :: rest)[j2 + 1]? = some f
      rw [List.getElem?_cons_succ, List.getElem?_eq_getElem hj]
      exact congrArg some (by rw [hj3]; simp)
    have hbase := pyramidScan_get (x :: rest) (rest.enumFrom 1) x 0 (by simp) hpairs
    rw [h2] at hbase
    simpa using hbase

theorem findAnchor_get (l : List EncFrame) (best : EncFrame) (bidx : Nat)
    (i : Nat) (f : EncFrame) (h : findAnchor l best bidx = some (i, f)) :
    l[i]? = some f := by
  have hmem := List.mem_of_find?_eq_some h
  obtain ⟨_, hj2, hj3⟩ := List.mem_enumFrom hmem
  have hlt : i < l.length := by omega
  rw [List.getElem?_eq_getElem hlt]
  exact congrArg some hj3.symm

theorem pyramidWalk_get (l : List EncFrame) :
    ∀ (fuel : Nat) (best : EncFrame) (bidx : Nat), l[bidx]? = some best →
      l[(pyramidWalk fuel l best bidx).2]? = some (pyramidWalk fuel l best bidx).1 := by
  intro fuel
  induction fuel with
  | zero =>
    intro best bidx hb
    exact hb
  | succ fuel ih =>
    intro best bidx hb
    simp only [pyramidWalk]
    rcases hfa : findAnchor l best bidx with _ | ⟨i, f⟩
    · exact hb
    · exact ih f i (findAnchor_get l best bidx i f hfa)

/-- C4 counterexample: in `c4State` the code pops the level-1 B at poc 2
even though the level-0 B at poc 10 is buffered, no buffered frame sits
at either of the level-0 B's anchor pocs, and the reference list already
holds `ref_num_list1` frames with poc above the level-0 B's — so the
claimed "lowest pyramid_level first" selection would have popped the
level-0 frame instead. -/
theorem c4_counterexample :
    popPyramidBFrame c4State = some (c4Frame2, [c4Frame1]) ∧
    c4Frame1 ∈ c4State.reorder_list ∧
    c4Frame1.pyramid_level < c4Frame2.pyramid_level ∧
    (∀ f ∈ c4State.reorder_list,
      f.poc ≠ c4Frame1.poc + c4Frame1.left_ref_poc_diff ∧
      f.poc ≠ c4Frame1.poc + c4Frame1.right_ref_poc_diff) ∧
    c4State.gop.ref_num_list1 ≤ countBackwardRefs c4State.ref_list c4Frame1.poc := by
  decide

/-- C4 (amended): `_pop_pyramid_b_frame` settles on a candidate by a
left-to-right scan that replaces the current frame whenever its
pyramid_level is lower than the next frame's, or otherwise whenever the
next frame's poc is lower, and then repeatedly re-targets any
still-buffered frame at the candidate's `poc + left_ref_poc_diff` or
`poc + right_ref_poc_diff` (those anchors must be popped first); the
candidate is a buffered frame, and it is popped exactly when the
reference list already holds at least `ref_num_list1` frames with poc
greater than the candidate's, nothing being emitted otherwise. -/
theorem c4_pop_pyramid_b (st : EncState) :
    (st.reorder_list = [] → popPyramidBFrame st = none) ∧
    (∀ b i, pyramidCandidate st = some (b, i) →
      st.reorder_list[i]? = some b ∧ b ∈ st.reorder_list ∧
      (st.gop.ref_num_list1 ≤ countBackwardRefs st.ref_list b.poc →
        popPyramidBFrame st = some (b, st.reorder_list.eraseIdx i)) ∧
      (¬ st.gop.ref_num_list1 ≤ countBackwardRefs st.ref_list b.poc →
        popPyramidBFrame st = none)) ∧
    (∀ b r, popPyramidBFrame st = some (b, r) →
      b ∈ st.reorder_list ∧
      st.gop.ref_num_list1 ≤ countBackwardRefs st.ref_list b.poc) := by
  have hget : ∀ b i, pyramidCandidate st = some (b, i) →
      st.reorder_list[i]? = some b := by
    intro b i h
    unfold pyramidCandidate at h
    rcases hps : pyramidSelect st.reorder_list with _ | ⟨b0, i0⟩
    · rw [hps] at h
      cases h
    · rw [hps] at h
      have h2 := Option.some.inj h
      have hb0 := pyramidSelect_get st.reorder_list b0 i0 hps
      have := pyramidWalk_get st.reorder_list st.reorder_list.length b0 i0 hb0
      rw [h2] at this
      exact this
  refine ⟨?_, ?_, ?_⟩
  · intro hnil
    unfold popPyramidBFrame pyramidCandidate
    rw [hnil]
    rfl
  · intro b i h
    have hbi := hget b i h
    refine ⟨hbi, List.getElem?_mem hbi, ?_, ?_⟩
    · intro hcnt
      unfold popPyramidBFrame
      rw [h]
      exact if_pos hcnt
    · intro hcnt
      unfold popPyramidBFrame
      rw [h]
      exact if_neg hcnt
  · intro b r hres
    unfold popPyramidBFrame at hres
    rcases hc : pyramidCandidate st with _ | ⟨b0, i0⟩
    · rw [hc] at hres
      cases hres
    · rw [hc] at hres
      have hres2 : (if st.gop.ref_num_list1 ≤ countBackwardRefs st.ref_list b0.poc
          then some (b0, st.reorder_list.eraseIdx i0) else none) = some (b, r) := hres
      by_cases hcnt : st.gop.ref_num_list1 ≤ countBackwardRefs st.ref_list b0.poc
      · rw [if_pos hcnt] at hres2
        have := Option.some.inj hres2
        have hb : b0 = b := congrArg Prod.fst this
        subst hb
        exact ⟨List.getElem?_mem (hget b0 i0 hc), hcnt⟩
      · rw [if_neg hcnt] at hres2
        cases hres2

/-- Witness for `c4_pop_pyramid_b`: an empty reorder list pops nothing. -/
theorem c4_pop_pyramid_b_witness :
    popPyramidBFrame ⟨⟨8, true, 3, 2, 1, 32, 0, 0, 0⟩, [], []⟩ = none :=
  (c4_pop_pyramid_b ⟨⟨8, true, 3, 2, 1, 32, 0, 0, 0⟩, [], []⟩).1 rfl

end VkEnc
